import Mathlib

/-!
# Verification of the SmartOS mdata V2 protocol client

A shallow embedding of the protocol core of the Go package `mdata`
(`src/mdata/mdata.go`): the frame codec (construction, wire encoding,
parsing with CRC-32 integrity checking), the version negotiation
handshake, and the client-side `Put` operation with its `sdc:`
namespace guard.

Modelling conventions:
* A Go byte is a `Nat` (meaningful values are `< 256`); a Go `string`
  or `[]byte` is a `List Nat` of its bytes.
* Library functions the Go code calls (`hash/crc32`, `encoding/base64`,
  `encoding/hex`, `strings.Split`/`Join`/`TrimPrefix`/`TrimSuffix`,
  `fmt.Sprintf`/`Sscanf`) are modelled byte-for-byte after their
  documented semantics on the inputs the program feeds them.
  `strings.ToUpper` is modelled at the byte level (ASCII `a`-`z` map to
  `A`-`Z`), which coincides with Go on ASCII input.
* `crypto/rand` is modelled by passing the four random bytes as an
  explicit argument to frame construction.
* The byte-stream connection is modelled as an explicit record of the
  bytes written so far and the scripted lines still to be read.
-/

namespace Mdata

/-- ASCII whitespace test (space, tab, newline, vertical tab, form feed,
carriage return). -/
def isWS (b : Nat) : Bool :=
  b == 32 || b == 9 || b == 10 || b == 11 || b == 12 || b == 13

/-! ## CRC-32 (`hash/crc32` with table `crc32.MakeTable(0xEDB88320)`) -/

/-- The CRC polynomial constant `CRCPolynomial = 0xEDB88320` from the source. -/
def CRCPolynomial : Nat := 0xEDB88320

/-- One bit step of the reflected CRC-32 table construction:
shift right, XOR the polynomial in when the low bit was set. -/
def crcStep (c : Nat) : Nat :=
  if c % 2 = 1 then (c / 2) ^^^ CRCPolynomial else c / 2

/-- Entry `i` of `crc32.MakeTable(0xEDB88320)`: eight bit steps applied to `i`. -/
def crcTable (i : Nat) : Nat :=
  crcStep (crcStep (crcStep (crcStep (crcStep (crcStep (crcStep (crcStep i)))))))

/-- One byte of `crc32.Update`: `tab[byte(crc)^v] ^ (crc >> 8)`. -/
def crcUpdate (crc v : Nat) : Nat :=
  crcTable ((crc % 256) ^^^ (v % 256)) ^^^ (crc / 256)

/-- `crc32.Checksum(data, crc32.MakeTable(0xEDB88320))`: fold the byte update
starting from `^0 = 0xFFFFFFFF`, complement at the end. -/
def crc32 (data : List Nat) : Nat :=
  0xFFFFFFFF ^^^ (data.foldl crcUpdate 0xFFFFFFFF)

/-! ## Lowercase hexadecimal rendering (`fmt.Sprintf "%08x"`, `encoding/hex`) -/

/-- One lowercase hex digit: `0`-`9` then `a`-`f` (ASCII codes). -/
def hexDigit (d : Nat) : Nat := if d < 10 then 48 + d else 87 + d

/-- `fmt.Sprintf("%08x", n)` for `n < 2^32`: exactly eight lowercase hex
digits, zero padded, most significant first. -/
def hex8 (n : Nat) : List Nat :=
  (List.range 8).map (fun i => hexDigit (n / 16 ^ (7 - i) % 16))

/-- `hex.EncodeToString`: two lowercase hex digits per byte, high nibble
first. -/
def hexEncode : List Nat → List Nat
  | [] => []
  | b :: rest => hexDigit (b / 16) :: hexDigit (b % 16) :: hexEncode rest

/-! ## Base64 (`encoding/base64` `StdEncoding`) -/

/-- The standard base64 alphabet `A`-`Z`, `a`-`z`, `0`-`9`, `+`, `/`
(ASCII codes), indexed by the 6-bit value. -/
def b64char (n : Nat) : Nat :=
  if n < 26 then 65 + n
  else if n < 52 then 97 + (n - 26)
  else if n < 62 then 48 + (n - 52)
  else if n = 62 then 43
  else 47

/-- Inverse of the standard base64 alphabet; `none` on characters outside
the alphabet (including the padding character `=`). -/
def b64val (c : Nat) : Option Nat :=
  if 65 ≤ c ∧ c ≤ 90 then some (c - 65)
  else if 97 ≤ c ∧ c ≤ 122 then some (26 + (c - 97))
  else if 48 ≤ c ∧ c ≤ 57 then some (52 + (c - 48))
  else if c = 43 then some 62
  else if c = 47 then some 63
  else none

/-- `base64.StdEncoding.EncodeToString`: three bytes become four alphabet
characters; a final partial group is padded with `=` (code 61). -/
def encB64 : List Nat → List Nat
  | [] => []
  | [a] => [b64char (a / 4), b64char (a % 4 * 16), 61, 61]
  | [a, b] => [b64char (a / 4), b64char (a % 4 * 16 + b / 16), b64char (b % 16 * 4), 61]
  | a :: b :: c :: rest =>
      b64char (a / 4) :: b64char (a % 4 * 16 + b / 16) ::
      b64char (b % 16 * 4 + c / 64) :: b64char (c % 64) :: encB64 rest

/-- Decode a newline-free base64 string in four-character quanta, as Go's
standard (non-strict) decoder does: `=` padding is accepted only at the
end, unused trailing bits are discarded, any leftover of one to three
characters is corrupt input. -/
def decB64Core : List Nat → Option (List Nat)
  | [] => some []
  | c1 :: c2 :: c3 :: c4 :: rest =>
    match b64val c1, b64val c2 with
    | some v1, some v2 =>
      if c3 = 61 then
        if c4 = 61 ∧ rest = [] then some [v1 * 4 + v2 / 16] else none
      else
        match b64val c3 with
        | some v3 =>
          if c4 = 61 then
            if rest = [] then some [v1 * 4 + v2 / 16, v2 % 16 * 16 + v3 / 4] else none
          else
            match b64val c4 with
            | some v4 =>
              match decB64Core rest with
              | some tail =>
                  some ((v1 * 4 + v2 / 16) :: (v2 % 16 * 16 + v3 / 4) ::
                        (v3 % 4 * 64 + v4) :: tail)
              | none => none
            | none => none
        | none => none
    | _, _ => none
  | _ => none

/-- `base64.StdEncoding.DecodeString`: carriage returns and newlines are
ignored, then the input is decoded in four-character quanta. -/
def decB64 (s : List Nat) : Option (List Nat) :=
  decB64Core (s.filter (fun b => !(b == 10 || b == 13)))

/-! ## Decimal rendering and scanning (`fmt.Sprintf "%d"`, `fmt.Sscanf "%d"`) -/

/-- Decimal digits (ASCII) of a natural number, most significant first. -/
def natDec (n : Nat) : List Nat :=
  if h : n < 10 then [48 + n]
  else natDec (n / 10) ++ [48 + n % 10]
  decreasing_by exact Nat.div_lt_self (by omega) (by omega)

/-- `fmt.Sprintf("%d", i)` for a Go `int`: optional minus sign then the
decimal digits of the absolute value. -/
def intRender (i : Int) : List Nat :=
  if i < 0 then 45 :: natDec i.natAbs else natDec i.toNat

/-- Numeric value of a digit string (horner fold, as a scanner accumulates). -/
def digitsVal (ds : List Nat) : Nat :=
  ds.foldl (fun a d => a * 10 + (d - 48)) 0

/-- Maximal leading run of decimal digits; `none` when there is none. -/
def parseDigits (s : List Nat) : Option Nat :=
  match s.takeWhile (fun b => 48 ≤ b && b ≤ 57) with
  | [] => none
  | d :: ds => some (digitsVal (d :: ds))

/-- `fmt.Sscanf(s, "%d", &x)`: skip leading spaces and tabs, accept an
optional sign, then require at least one decimal digit; the maximal digit
run gives the value and any trailing bytes are ignored (Sscanf does not
require the whole string to be consumed). -/
def sscanfD (s : List Nat) : Option Int :=
  match s.dropWhile (fun b => b == 32 || b == 9) with
  | [] => none
  | b :: rest =>
    if b = 45 then (parseDigits rest).map (fun n => -(n : Int))
    else if b = 43 then (parseDigits rest).map (fun n => (n : Int))
    else (parseDigits (b :: rest)).map (fun n => (n : Int))

/-! ## Byte-string utilities (`strings` package) -/

/-- `strings.TrimSuffix`. -/
def trimSuffixB (suffix s : List Nat) : List Nat :=
  if suffix.isSuffixOf s then s.take (s.length - suffix.length) else s

/-- `strings.TrimPrefix`. -/
def trimPrefixB (pre s : List Nat) : List Nat :=
  if pre.isPrefixOf s then s.drop pre.length else s

/-- Prepend a byte to the first field of a split result. -/
def consHead (b : Nat) : List (List Nat) → List (List Nat)
  | [] => [[b]]
  | f :: fs => (b :: f) :: fs

/-- `strings.Split(s, " ")`: fields between the space bytes, empty fields
preserved; the empty string yields one empty field. -/
def splitB : List Nat → List (List Nat)
  | [] => [[]]
  | b :: rest => if b = 32 then [] :: splitB rest else consHead b (splitB rest)

/-- `strings.Join(parts, " ")`. -/
def joinB : List (List Nat) → List Nat
  | [] => []
  | [p] => p
  | p :: q :: ps => p ++ 32 :: joinB (q :: ps)

/-- Byte-level `strings.ToUpper`: ASCII `a`-`z` map to `A`-`Z`, everything
else is unchanged. -/
def toUpperByte (b : Nat) : Nat := if 97 ≤ b ∧ b ≤ 122 then b - 32 else b

/-- `strings.ToUpper` over a byte string. -/
def upperB (s : List Nat) : List Nat := s.map toUpperByte

/-! ## The frame data model (`type frame struct`) -/

/-- A Version 2 protocol frame. -/
structure Frame where
  RequestID : List Nat
  Code : List Nat
  Payload : List Nat
  BodyLength : Int
  BodyChecksum : List Nat
deriving DecidableEq, Repr

/-- `ProtocolPrefix = "V2 "`. -/
def ProtocolPrefix : List Nat := [86, 50, 32]

/-- `NegotiationReq = "NEGOTIATE V2\n"`. -/
def NegotiationReq : List Nat := [78, 69, 71, 79, 84, 73, 65, 84, 69, 32, 86, 50, 10]

/-- `NegotiationResp = "V2_OK\n"`. -/
def NegotiationResp : List Nat := [86, 50, 95, 79, 75, 10]

/-- `frame.buildBodyString`: join `RequestID`, `Code` and, only when the
payload is non-empty, the base64 of the payload, with single spaces. -/
def buildBodyString (f : Frame) : List Nat :=
  joinB (if f.Payload.length > 0
         then [f.RequestID, f.Code, encB64 f.Payload]
         else [f.RequestID, f.Code])

/-- `frame.updateBodyMetadata`: recompute `BodyLength` and `BodyChecksum`
from the canonical body string. -/
def updateBodyMetadata (f : Frame) : Frame :=
  { f with BodyLength := (buildBodyString f).length,
           BodyChecksum := hex8 (crc32 (buildBodyString f)) }

/-- `newFrame(code, payload)` with the four `crypto/rand` bytes passed
explicitly: the request id is their lowercase hex, the code is
upper-cased, then the body metadata is computed. -/
def newFrame (randBytes code payload : List Nat) : Frame :=
  updateBodyMetadata
    { RequestID := hexEncode randBytes
      Code := upperB code
      Payload := payload
      BodyLength := 0
      BodyChecksum := [] }

/-- `frame.Encode`: `fmt.Sprintf("%s%d %s %s\n", ProtocolPrefix,
BodyLength, BodyChecksum, buildBodyString)`. -/
def Encode (f : Frame) : List Nat :=
  ProtocolPrefix ++ intRender f.BodyLength ++ 32 :: f.BodyChecksum ++
    32 :: buildBodyString f ++ [10]

/-- The distinct failure cases of `ParseFrame`, one per `fmt.Errorf` site. -/
inductive ParseErr where
  | invalidFramePrefix
  | invalidFrameFormat
  | invalidBodyLength
  | invalidChecksumFormat
  | invalidBodyFormat
  | invalidPayloadEncoding
  | checksumMismatch
deriving DecidableEq, Repr

/-- All of `ParseFrame` up to (but not including) the final checksum
verification: prefix check, newline and prefix trimming, splitting into
space-separated fields, `Sscanf` of the body length, the 8-character
checksum-format check, the body field-count check and base64 decoding of
the optional payload field. -/
def parsePre (data : List Nat) : Except ParseErr Frame :=
  if ProtocolPrefix.isPrefixOf data then
    match splitB (trimPrefixB ProtocolPrefix (trimSuffixB [10] data)) with
    | p0 :: p1 :: b0 :: bodyRest =>
      match sscanfD p0 with
      | none => .error .invalidBodyLength
      | some n =>
        if p1.length = 8 then
          match bodyRest with
          | [] => .error .invalidBodyFormat
          | b1 :: rest2 =>
            match rest2 with
            | [] => .ok ⟨b0, b1, [], n, p1⟩
            | b2 :: _ =>
              match decB64 b2 with
              | none => .error .invalidPayloadEncoding
              | some pay => .ok ⟨b0, b1, pay, n, p1⟩
        else .error .invalidChecksumFormat
    | _ => .error .invalidFrameFormat
  else .error .invalidFramePrefix

/-- `ParseFrame`: the pre-checksum phase followed by the final
verification that the CRC-32 of the reconstructed canonical body string
matches the transmitted checksum field. -/
def ParseFrame (data : List Nat) : Except ParseErr Frame :=
  match parsePre data with
  | .error e => .error e
  | .ok f =>
    if hex8 (crc32 (buildBodyString f)) = f.BodyChecksum then .ok f
    else .error .checksumMismatch

/-! ## Negotiation (`Negotiate`) -/

/-- The failure cases of `Negotiate`, one per `fmt.Errorf` site. -/
inductive NegErr where
  | writeFailed
  | flushFailed
  | readFailed
deriving DecidableEq, Repr

/-- The transport behaviour `Negotiate` can observe: whether the write and
the flush succeed, and the line the peer answers (`none` = read error). -/
structure NegIO where
  writeOk : Bool
  flushOk : Bool
  readResult : Option (List Nat)
deriving DecidableEq, Repr

/-- `Negotiate`: write `NEGOTIATE V2\n`, flush, read one line, and report
whether it is exactly `V2_OK\n`; I/O failures become errors. The first
component is the bytes handed to the transport. -/
def Negotiate (io : NegIO) : List Nat × Except NegErr Bool :=
  if io.writeOk = false then ([], .error .writeFailed)
  else if io.flushOk = false then (NegotiationReq, .error .flushFailed)
  else
    match io.readResult with
    | none => (NegotiationReq, .error .readFailed)
    | some resp => (NegotiationReq, .ok (resp == NegotiationResp))

/-! ## The transaction client (`sendRequest`, `Put`) -/

/-- The failure cases of `sendRequest` and `Put`. -/
inductive ClientErr where
  | sdcReadOnly
  | readFailed
  | parseFailed (e : ParseErr)
  | requestFailed (code : List Nat)
deriving DecidableEq, Repr

/-- A scripted in-memory connection: the bytes written so far and the
lines still to be read (reading past the script is a read error).
The in-memory writer itself never fails. -/
structure MockConn where
  written : List Nat
  toRead : List (List Nat)
deriving DecidableEq, Repr

/-- `"SUCCESS"`. -/
def successCode : List Nat := [83, 85, 67, 67, 69, 83, 83]

/-- `"sdc:"`, the reserved read-only namespace prefix. -/
def sdcPrefix : List Nat := [115, 100, 99, 58]

/-- `"PUT"`. -/
def putCode : List Nat := [80, 85, 84]

/-- `sendRequest(code, payload)` over a scripted connection with the four
random bytes passed explicitly: build the frame, write its encoding,
read one line, parse it, and require response code `SUCCESS`. -/
def sendRequest (conn : MockConn) (randBytes code payload : List Nat) :
    MockConn × Except ClientErr (List Nat) :=
  let f := newFrame randBytes code payload
  let conn1 : MockConn := { conn with written := conn.written ++ Encode f }
  match conn1.toRead with
  | [] => (conn1, .error .readFailed)
  | line :: rest =>
    let conn2 : MockConn := { conn1 with toRead := rest }
    match ParseFrame line with
    | .error e => (conn2, .error (.parseFailed e))
    | .ok respF =>
      if respF.Code = successCode then (conn2, .ok respF.Payload)
      else (conn2, .error (.requestFailed respF.Code))

/-- `Put(key, value)`: reject keys in the `sdc:` namespace before any
I/O; otherwise base64-encode key and value separately, join them with a
space, and send that text as the payload of a `PUT` request. -/
def Put (conn : MockConn) (randBytes key value : List Nat) :
    MockConn × Except ClientErr (List Nat) :=
  if sdcPrefix.isPrefixOf key then (conn, .error .sdcReadOnly)
  else sendRequest conn randBytes putCode (encB64 key ++ 32 :: encB64 value)

/-- Bytes of an ASCII string literal, for readable concrete wire lines. -/
def str (s : String) : List Nat := s.toList.map Char.toNat

/-! ## Byte-class facts about the rendering primitives -/

theorem hexDigit_ge (d : Nat) : 48 ≤ hexDigit d := by
  unfold hexDigit; split <;> omega

theorem mem_hexEncode_ge : ∀ (bs : List Nat), ∀ x ∈ hexEncode bs, 48 ≤ x
  | [] => by simp [hexEncode]
  | b :: rest => by
      intro x hx
      simp only [hexEncode, List.mem_cons] at hx
      rcases hx with h | h | h
      · exact h ▸ hexDigit_ge _
      · exact h ▸ hexDigit_ge _
      · exact mem_hexEncode_ge rest x h

theorem mem_hex8_ge (n : Nat) : ∀ x ∈ hex8 n, 48 ≤ x := by
  intro x hx
  simp only [hex8, List.mem_map, List.mem_range] at hx
  obtain ⟨i, _, rfl⟩ := hx
  exact hexDigit_ge _

theorem hex8_length (n : Nat) : (hex8 n).length = 8 := by
  simp [hex8]

theorem b64char_ge (n : Nat) : 43 ≤ b64char n := by
  unfold b64char
  repeat' split
  all_goals omega

theorem b64char_ne_61 (n : Nat) : b64char n ≠ 61 := by
  unfold b64char
  repeat' split
  all_goals omega

theorem mem_encB64_ge : ∀ (p : List Nat), ∀ x ∈ encB64 p, 43 ≤ x
  | [] => by simp [encB64]
  | [a] => by
      intro x hx
      simp only [encB64, List.mem_cons, List.not_mem_nil, or_false] at hx
      rcases hx with h | h | h | h <;> subst h
      · exact b64char_ge _
      · exact b64char_ge _
      · omega
      · omega
  | [a, b] => by
      intro x hx
      simp only [encB64, List.mem_cons, List.not_mem_nil, or_false] at hx
      rcases hx with h | h | h | h <;> subst h
      · exact b64char_ge _
      · exact b64char_ge _
      · exact b64char_ge _
      · omega
  | a :: b :: c :: rest => by
      intro x hx
      simp only [encB64, List.mem_cons] at hx
      rcases hx with h | h | h | h | h
      · exact h ▸ b64char_ge _
      · exact h ▸ b64char_ge _
      · exact h ▸ b64char_ge _
      · exact h ▸ b64char_ge _
      · exact mem_encB64_ge rest x h

theorem natDec_mem : ∀ (n : Nat), ∀ x ∈ natDec n, 48 ≤ x ∧ x ≤ 57 := by
  intro n
  induction n using Nat.strong_induction_on with
  | _ n ih =>
    rw [natDec]
    split
    · intro x hx
      simp only [List.mem_singleton] at hx
      omega
    · intro x hx
      rw [List.mem_append] at hx
      rcases hx with h | h
      · exact ih _ (Nat.div_lt_self (by omega) (by omega)) x h
      · simp only [List.mem_singleton] at h
        omega

theorem natDec_ne_nil (n : Nat) : natDec n ≠ [] := by
  rw [natDec]
  split
  · simp
  · simp

theorem intRender_mem (i : Int) : ∀ x ∈ intRender i, x = 45 ∨ (48 ≤ x ∧ x ≤ 57) := by
  intro x
  unfold intRender
  split
  · intro hx
    rcases List.mem_cons.mp hx with h | h
    · left; exact h
    · right; exact natDec_mem _ x h
  · intro hx
    right
    exact natDec_mem _ x hx

/-! ## Decimal round trip: scanning what was rendered -/

theorem digitsVal_append (xs : List Nat) (d : Nat) :
    digitsVal (xs ++ [d]) = digitsVal xs * 10 + (d - 48) := by
  simp [digitsVal, List.foldl_append]

theorem digitsVal_natDec : ∀ (n : Nat), digitsVal (natDec n) = n := by
  intro n
  induction n using Nat.strong_induction_on with
  | _ n ih =>
    rw [natDec]
    split
    · simp [digitsVal]
    · rw [digitsVal_append, ih _ (Nat.div_lt_self (by omega) (by omega))]
      omega

theorem takeWhile_of_all {p : Nat → Bool} :
    ∀ {l : List Nat}, (∀ x ∈ l, p x = true) → l.takeWhile p = l
  | [], _ => rfl
  | a :: l, h => by
      rw [List.takeWhile_cons, h a (by simp)]
      simp only [if_true]
      rw [takeWhile_of_all (fun x hx => h x (by simp [hx]))]

theorem parseDigits_natDec (n : Nat) : parseDigits (natDec n) = some n := by
  unfold parseDigits
  rw [takeWhile_of_all (p := fun b => 48 ≤ b && b ≤ 57)
      (fun x hx => by have := natDec_mem n x hx; simp; omega)]
  rcases h : natDec n with _ | ⟨d, ds⟩
  · exact absurd h (natDec_ne_nil n)
  · show some (digitsVal (d :: ds)) = some n
    rw [← h, digitsVal_natDec]

theorem sscanfD_natDec (n : Nat) : sscanfD (natDec n) = some (n : Int) := by
  unfold sscanfD
  rcases h : natDec n with _ | ⟨d, ds⟩
  · exact absurd h (natDec_ne_nil n)
  · have hd : 48 ≤ d ∧ d ≤ 57 := natDec_mem n d (h ▸ by simp)
    rw [List.dropWhile_cons]
    have : (d == 32 || d == 9) = false := by
      simp only [Bool.or_eq_false_iff, beq_eq_false_iff_ne]
      omega
    rw [this]
    simp only [Bool.false_eq_true, if_false]
    have h45 : ¬ d = 45 := by omega
    have h43 : ¬ d = 43 := by omega
    rw [if_neg h45, if_neg h43, ← h, parseDigits_natDec]
    rfl

/-! ## Trimming and splitting -/

theorem isPrefixOf_append : ∀ (p s : List Nat), p.isPrefixOf (p ++ s) = true
  | [], _ => by simp [List.isPrefixOf]
  | a :: p, s => by
      simp only [List.cons_append, List.isPrefixOf_cons₂_self]
      exact isPrefixOf_append p s

theorem trimPrefixB_append (p s : List Nat) : trimPrefixB p (p ++ s) = s := by
  unfold trimPrefixB
  rw [isPrefixOf_append]
  simp

theorem trimSuffixB_newline (s : List Nat) : trimSuffixB [10] (s ++ [10]) = s := by
  unfold trimSuffixB
  have : List.isSuffixOf [10] (s ++ [10]) = true := by
    rw [List.isSuffixOf_iff_suffix]
    exact ⟨s, rfl⟩
  rw [this]
  simp

theorem splitB_nospace : ∀ (p : List Nat), (∀ x ∈ p, x ≠ 32) → splitB p = [p]
  | [], _ => rfl
  | b :: p, h => by
      have hb : ¬ b = 32 := h b (by simp)
      simp only [splitB, if_neg hb]
      rw [splitB_nospace p (fun x hx => h x (by simp [hx]))]
      rfl

theorem splitB_append : ∀ (p t : List Nat), (∀ x ∈ p, x ≠ 32) →
    splitB (p ++ 32 :: t) = p :: splitB t
  | [], t, _ => by simp [splitB]
  | b :: p, t, h => by
      have hb : ¬ b = 32 := h b (by simp)
      simp only [List.cons_append, splitB, if_neg hb, List.append_eq]
      rw [splitB_append p t (fun x hx => h x (by simp [hx]))]
      rfl

/-! ## Upper-casing -/

theorem toUpperByte_idem (b : Nat) : toUpperByte (toUpperByte b) = toUpperByte b := by
  unfold toUpperByte
  repeat' split
  all_goals omega

theorem upperB_idem (s : List Nat) : upperB (upperB s) = upperB s := by
  simp only [upperB, List.map_map]
  exact List.map_congr_left (fun b _ => toUpperByte_idem b)

theorem toUpperByte_not_ws {b : Nat} (h : isWS b = false) :
    toUpperByte b ≠ 32 ∧ toUpperByte b ≠ 10 := by
  simp only [isWS, Bool.or_eq_false_iff, beq_eq_false_iff_ne] at h
  unfold toUpperByte
  split <;> omega

/-! ## Base64 round trip -/

theorem b64val_b64char : ∀ n < 64, b64val (b64char n) = some n := by decide

theorem decB64Core_encB64 : ∀ (p : List Nat), (∀ b ∈ p, b < 256) →
    decB64Core (encB64 p) = some p
  | [], _ => rfl
  | [a], h => by
      have ha : a < 256 := h a (by simp)
      have h1 := b64val_b64char (a / 4) (by omega)
      have h2 := b64val_b64char (a % 4 * 16) (by omega)
      simp only [encB64, decB64Core, h1, h2, and_self, if_true, if_pos rfl,
        Option.some.injEq, List.cons.injEq, and_true]
      omega
  | [a, b], h => by
      have ha : a < 256 := h a (by simp)
      have hb : b < 256 := h b (by simp)
      have h1 := b64val_b64char (a / 4) (by omega)
      have h2 := b64val_b64char (a % 4 * 16 + b / 16) (by omega)
      have h3 := b64val_b64char (b % 16 * 4) (by omega)
      have n3 := b64char_ne_61 (b % 16 * 4)
      simp only [encB64, decB64Core, h1, h2, h3, if_neg n3, if_true,
        Option.some.injEq, List.cons.injEq, and_true]
      refine ⟨by omega, by omega⟩
  | a :: b :: c :: rest, h => by
      have ha : a < 256 := h a (by simp)
      have hb : b < 256 := h b (by simp)
      have hc : c < 256 := h c (by simp)
      have h1 := b64val_b64char (a / 4) (by omega)
      have h2 := b64val_b64char (a % 4 * 16 + b / 16) (by omega)
      have h3 := b64val_b64char (b % 16 * 4 + c / 64) (by omega)
      have h4 := b64val_b64char (c % 64) (by omega)
      have n3 := b64char_ne_61 (b % 16 * 4 + c / 64)
      have n4 := b64char_ne_61 (c % 64)
      have ihr := decB64Core_encB64 rest (fun x hx => h x (by simp [hx]))
      simp only [encB64, decB64Core, h1, h2, h3, h4, if_neg n3, if_neg n4, ihr,
        Option.some.injEq, List.cons.injEq, and_true]
      refine ⟨by omega, by omega, by omega⟩

theorem decB64_encB64 (p : List Nat) (h : ∀ b ∈ p, b < 256) :
    decB64 (encB64 p) = some p := by
  unfold decB64
  rw [List.filter_eq_self.mpr, decB64Core_encB64 p h]
  intro x hx
  have := mem_encB64_ge p x hx
  simp only [Bool.not_eq_true']
  simp only [Bool.or_eq_false_iff, beq_eq_false_iff_ne]
  omega

/-! ## Stepping lemmas for `parsePre` and the encoder -/

theorem intRender_ofNat (m : Nat) : intRender (m : Int) = natDec m := by
  unfold intRender
  rw [if_neg (by omega : ¬ (m : Int) < 0)]
  simp

/-- Recomputing the metadata does not change the canonical body string. -/
theorem buildBodyString_update (f : Frame) :
    buildBodyString (updateBodyMetadata f) = buildBodyString f := rfl

/-- `parsePre` on a line that splits into exactly four fields with a
scannable length and an 8-byte checksum field: a frame with empty payload. -/
theorem parsePre_noPayload (data p0 p1 b0 b1 : List Nat) (n : Int)
    (hpre : ProtocolPrefix.isPrefixOf data = true)
    (hsplit : splitB (trimPrefixB ProtocolPrefix (trimSuffixB [10] data)) =
      [p0, p1, b0, b1])
    (hn : sscanfD p0 = some n)
    (h8 : p1.length = 8) :
    parsePre data = .ok ⟨b0, b1, [], n, p1⟩ := by
  unfold parsePre
  rw [if_pos hpre, hsplit]
  show (match sscanfD p0 with
        | none => Except.error ParseErr.invalidBodyLength
        | some n =>
          if p1.length = 8 then Except.ok (⟨b0, b1, [], n, p1⟩ : Frame)
          else Except.error ParseErr.invalidChecksumFormat) = _
  rw [hn]
  simp only [if_pos h8]

/-- `parsePre` on a line that splits into five or more fields with a
scannable length, an 8-byte checksum field and a base64 payload field:
a frame carrying the decoded payload; fields past the fifth are ignored. -/
theorem parsePre_payload (data p0 p1 b0 b1 b2 : List Nat)
    (tailFields : List (List Nat)) (n : Int) (pay : List Nat)
    (hpre : ProtocolPrefix.isPrefixOf data = true)
    (hsplit : splitB (trimPrefixB ProtocolPrefix (trimSuffixB [10] data)) =
      p0 :: p1 :: b0 :: b1 :: b2 :: tailFields)
    (hn : sscanfD p0 = some n)
    (h8 : p1.length = 8)
    (hdec : decB64 b2 = some pay) :
    parsePre data = .ok ⟨b0, b1, pay, n, p1⟩ := by
  unfold parsePre
  rw [if_pos hpre, hsplit]
  show (match sscanfD p0 with
        | none => Except.error ParseErr.invalidBodyLength
        | some n =>
          if p1.length = 8 then
            match decB64 b2 with
            | none => Except.error ParseErr.invalidPayloadEncoding
            | some pay => Except.ok (⟨b0, b1, pay, n, p1⟩ : Frame)
          else Except.error ParseErr.invalidChecksumFormat) = _
  rw [hn, hdec]
  simp only [if_pos h8]

/-- `ParseFrame` after a successful pre-checksum phase is exactly the
checksum comparison on the reconstructed frame. -/
theorem ParseFrame_of_parsePre (data : List Nat) (f : Frame)
    (h : parsePre data = .ok f) :
    ParseFrame data =
      if hex8 (crc32 (buildBodyString f)) = f.BodyChecksum then .ok f
      else .error .checksumMismatch := by
  unfold ParseFrame
  rw [h]

/-- Round trip for any frame whose metadata fields are consistent with its
canonical body string and whose id and code are space-free:
parsing its encoding returns it unchanged. -/
theorem encode_parse_ok (f : Frame)
    (hlen : f.BodyLength = ((buildBodyString f).length : Int))
    (hcks : f.BodyChecksum = hex8 (crc32 (buildBodyString f)))
    (hrid : ∀ x ∈ f.RequestID, x ≠ 32)
    (hcode : ∀ x ∈ f.Code, x ≠ 32)
    (hpl : ∀ b ∈ f.Payload, b < 256) :
    ParseFrame (Encode f) = .ok f := by
  obtain ⟨rid, code, pay, len, cks⟩ := f
  simp only at hlen hcks hrid hcode hpl
  have hEnc : Encode ⟨rid, code, pay, len, cks⟩ =
      (ProtocolPrefix ++ (intRender len ++ 32 :: (cks ++
        32 :: buildBodyString ⟨rid, code, pay, len, cks⟩))) ++ [10] := by
    simp [Encode, List.append_assoc]
  have hpre : ProtocolPrefix.isPrefixOf (Encode ⟨rid, code, pay, len, cks⟩) = true := by
    rw [hEnc, List.append_assoc]
    exact isPrefixOf_append _ _
  have hcksl : cks.length = 8 := by rw [hcks]; exact hex8_length _
  have hlen32 : ∀ x ∈ intRender len, x ≠ 32 := fun x hx => by
    rcases intRender_mem _ x hx with h | h <;> omega
  have hcks32 : ∀ x ∈ cks, x ≠ 32 := fun x hx => by
    rw [hcks] at hx
    have := mem_hex8_ge _ x hx
    omega
  have hn : sscanfD (intRender len) = some len := by
    rw [hlen, intRender_ofNat, sscanfD_natDec]
  by_cases hp : pay = []
  · subst hp
    have hbody : buildBodyString ⟨rid, code, [], len, cks⟩ = rid ++ 32 :: code := by
      simp [buildBodyString, joinB]
    have hsplit : splitB (trimPrefixB ProtocolPrefix
        (trimSuffixB [10] (Encode ⟨rid, code, [], len, cks⟩))) =
        [intRender len, cks, rid, code] := by
      rw [hEnc, trimSuffixB_newline, trimPrefixB_append, hbody]
      rw [splitB_append _ _ hlen32, splitB_append _ _ hcks32, splitB_append _ _ hrid,
          splitB_nospace _ hcode]
    have hok := parsePre_noPayload _ _ _ _ _ _ hpre hsplit hn hcksl
    rw [ParseFrame_of_parsePre _ _ hok]
    simp only
    rw [if_pos hcks.symm]
  · have hpl2 : pay.length > 0 := List.length_pos.mpr hp
    have hbody : buildBodyString ⟨rid, code, pay, len, cks⟩ =
        rid ++ 32 :: (code ++ 32 :: encB64 pay) := by
      simp [buildBodyString, joinB, if_pos hpl2]
    have hb64 : ∀ x ∈ encB64 pay, x ≠ 32 := fun x hx => by
      have := mem_encB64_ge pay x hx
      omega
    have hsplit : splitB (trimPrefixB ProtocolPrefix
        (trimSuffixB [10] (Encode ⟨rid, code, pay, len, cks⟩))) =
        [intRender len, cks, rid, code, encB64 pay] := by
      rw [hEnc, trimSuffixB_newline, trimPrefixB_append, hbody]
      rw [splitB_append _ _ hlen32, splitB_append _ _ hcks32, splitB_append _ _ hrid,
          splitB_append _ _ hcode, splitB_nospace _ hb64]
    have hok := parsePre_payload _ _ _ _ _ _ _ _ _ hpre hsplit hn hcksl
        (decB64_encB64 pay hpl)
    rw [ParseFrame_of_parsePre _ _ hok]
    simp only
    rw [if_pos hcks.symm]

/-- Every byte of a canonical body string comes from the request id, the
code, a separating space, or the base64 payload field. -/
theorem mem_buildBodyString (f : Frame) : ∀ x ∈ buildBodyString f,
    x ∈ f.RequestID ∨ x ∈ f.Code ∨ x = 32 ∨ x ∈ encB64 f.Payload := by
  intro x hx
  unfold buildBodyString at hx
  by_cases hp : f.Payload.length > 0
  · rw [if_pos hp] at hx
    simp only [joinB, List.mem_append, List.mem_cons] at hx
    tauto
  · rw [if_neg hp] at hx
    simp only [joinB, List.mem_append, List.mem_cons] at hx
    tauto

/-! ## The claims -/

/-- C1. Round trip: for every valid (code, payload) pair — code a
non-empty whitespace-free token, payload arbitrary bytes — parsing the
encoding of a constructed frame succeeds and returns a frame with
identical Code, Payload, RequestID, BodyLength and BodyChecksum. -/
theorem construct_encode_decode_roundtrip (randBytes code payload : List Nat)
    (hcode : code ≠ []) (hws : ∀ b ∈ code, isWS b = false)
    (hpl : ∀ b ∈ payload, b < 256) :
    ParseFrame (Encode (newFrame randBytes code payload)) =
      .ok (newFrame randBytes code payload) := by
  apply encode_parse_ok
  · rfl
  · rfl
  · intro x hx
    have := mem_hexEncode_ge randBytes x hx
    omega
  · intro x hx
    have hx' : x ∈ upperB code := hx
    obtain ⟨b, hb, rfl⟩ := List.mem_map.mp hx'
    exact (toUpperByte_not_ws (hws b hb)).1
  · exact hpl

set_option maxRecDepth 10000 in
/-- Witness for C1 at code `"get"`, payload `"x"`, random bytes 0. -/
theorem construct_encode_decode_roundtrip_witness :
    ParseFrame (Encode (newFrame [0, 0, 0, 0] (str "get") (str "x"))) =
      .ok (newFrame [0, 0, 0, 0] (str "get") (str "x")) :=
  construct_encode_decode_roundtrip [0, 0, 0, 0] (str "get") (str "x")
    (by decide) (by decide) (by decide)

/-- C2. Encode produces exactly
`"V2 " ++ decimal(BodyLength) ++ " " ++ BodyChecksum ++ " " ++ RequestID
++ " " ++ Code [++ " " ++ base64(Payload)] ++ "\n"`,
terminated by a single newline with no embedded newline (stated for
frames whose textual fields are newline-free, as all frames built by this
codec are; the base64 payload field is newline-free unconditionally). -/
theorem encode_exact_wire_format (f : Frame)
    (hrid : ∀ x ∈ f.RequestID, x ≠ 10)
    (hcode : ∀ x ∈ f.Code, x ≠ 10)
    (hcks : ∀ x ∈ f.BodyChecksum, x ≠ 10) :
    Encode f = ProtocolPrefix ++ intRender f.BodyLength ++ 32 :: f.BodyChecksum ++
        32 :: (f.RequestID ++ 32 :: f.Code ++
          (if f.Payload.length > 0 then 32 :: encB64 f.Payload else [])) ++ [10] ∧
    ∃ s, Encode f = s ++ [10] ∧ ∀ x ∈ s, x ≠ 10 := by
  constructor
  · unfold Encode buildBodyString
    by_cases hp : f.Payload.length > 0
    · rw [if_pos hp, if_pos hp]
      simp [joinB]
    · rw [if_neg hp, if_neg hp]
      simp [joinB]
  · refine ⟨ProtocolPrefix ++ intRender f.BodyLength ++ 32 :: f.BodyChecksum ++
      32 :: buildBodyString f, by simp [Encode], ?_⟩
    intro x hx
    rcases List.mem_append.mp hx with h | h
    · rcases List.mem_append.mp h with h | h
      · rcases List.mem_append.mp h with h | h
        · have h3 : x = 86 ∨ x = 50 ∨ x = 32 := by
            simpa [ProtocolPrefix] using h
          rcases h3 with rfl | rfl | rfl <;> omega
        · rcases intRender_mem _ x h with h1 | h1 <;> omega
      · rcases List.mem_cons.mp h with rfl | h
        · omega
        · exact hcks x h
    · rcases List.mem_cons.mp h with rfl | h
      · omega
      · rcases mem_buildBodyString f x h with h4 | h4 | h4 | h4
        · exact hrid x h4
        · exact hcode x h4
        · omega
        · have := mem_encB64_ge f.Payload x h4
          omega

/-- Witness for C2 at a concrete frame with payload `"x"`. -/
theorem encode_exact_wire_format_witness :
    Encode ⟨str "aaaaaaaa", str "GET", str "x", 17, str "211b16bd"⟩ =
      ProtocolPrefix ++ intRender 17 ++ 32 :: str "211b16bd" ++
        32 :: (str "aaaaaaaa" ++ 32 :: str "GET" ++
          (if (str "x").length > 0 then 32 :: encB64 (str "x") else [])) ++ [10] :=
  (encode_exact_wire_format ⟨str "aaaaaaaa", str "GET", str "x", 17, str "211b16bd"⟩
    (by decide) (by decide) (by decide)).1

/-- C3. Checksum enforcement: on any line that passes every pre-checksum
check (prefix, field counts, length scan, checksum format, base64), the
parse succeeds iff the recomputed CRC-32 of the reconstructed canonical
body string, as 8 lowercase hex digits, equals the transmitted checksum
field; on mismatch it fails with the checksum-mismatch error. -/
theorem parse_checksum_enforcement (data : List Nat) (f : Frame)
    (h : parsePre data = .ok f) :
    (ParseFrame data = .ok f ↔
      hex8 (crc32 (buildBodyString f)) = f.BodyChecksum) ∧
    (hex8 (crc32 (buildBodyString f)) ≠ f.BodyChecksum →
      ParseFrame data = .error .checksumMismatch) := by
  rw [ParseFrame_of_parsePre _ _ h]
  refine ⟨⟨?_, ?_⟩, ?_⟩
  · intro hok
    by_contra hne
    rw [if_neg hne] at hok
    simp at hok
  · intro he
    rw [if_pos he]
  · intro hne
    rw [if_neg hne]

set_option maxRecDepth 10000 in
/-- Witness for C3: a matching line is accepted, the same line with a
wrong checksum field is rejected with the checksum-mismatch error. -/
theorem parse_checksum_enforcement_witness :
    ParseFrame (str "V2 12 4ed02af9 aaaaaaaa GET\n") =
      .ok ⟨str "aaaaaaaa", str "GET", [], 12, str "4ed02af9"⟩ ∧
    ParseFrame (str "V2 12 00000000 aaaaaaaa GET\n") =
      .error .checksumMismatch := by
  constructor
  · exact (parse_checksum_enforcement (str "V2 12 4ed02af9 aaaaaaaa GET\n")
      ⟨str "aaaaaaaa", str "GET", [], 12, str "4ed02af9"⟩ (by rfl)).1.mpr (by rfl)
  · exact (parse_checksum_enforcement (str "V2 12 00000000 aaaaaaaa GET\n")
      ⟨str "aaaaaaaa", str "GET", [], 12, str "00000000"⟩ (by rfl)).2 (by decide)

/-- C4. Negotiate writes exactly `"NEGOTIATE V2\n"`, reads one line, and
answers true only for the byte-identical reply `"V2_OK\n"`; the replies
`"V2_OK"` (no newline) and `"v2_ok\n"` yield false, while write, flush
and read failures surface as errors, never as a false answer. -/
theorem negotiate_exactness (resp : List Nat) :
    Negotiate ⟨true, true, some resp⟩ =
      (NegotiationReq, .ok (resp == NegotiationResp)) ∧
    ((resp == NegotiationResp) = true ↔ resp = NegotiationResp) ∧
    Negotiate ⟨true, true, some (str "V2_OK")⟩ = (NegotiationReq, .ok false) ∧
    Negotiate ⟨true, true, some (str "v2_ok\n")⟩ = (NegotiationReq, .ok false) ∧
    Negotiate ⟨true, true, none⟩ = (NegotiationReq, .error .readFailed) ∧
    Negotiate ⟨false, true, some resp⟩ = ([], .error .writeFailed) ∧
    Negotiate ⟨true, false, some resp⟩ = (NegotiationReq, .error .flushFailed) :=
  ⟨rfl, beq_iff_eq, by rfl, by rfl, rfl, rfl, rfl⟩

/-- C5. Namespace guard: a `Put` whose key starts with `"sdc:"` fails
with the namespace error and leaves the connection untouched (no bytes
written, no line consumed); on any other key the guard does not trigger
and `Put` proceeds to send a `PUT` request. -/
theorem put_namespace_guard (conn : MockConn) (randBytes key value : List Nat) :
    (sdcPrefix.isPrefixOf key = true →
      Put conn randBytes key value = (conn, .error .sdcReadOnly)) ∧
    (sdcPrefix.isPrefixOf key = false →
      Put conn randBytes key value =
        sendRequest conn randBytes putCode (encB64 key ++ 32 :: encB64 value)) := by
  constructor
  · intro h
    unfold Put
    rw [if_pos h]
  · intro h
    unfold Put
    rw [if_neg (by simp [h])]

/-- Witness for C5 at keys `"sdc:uuid"` and `"foo"`. -/
theorem put_namespace_guard_witness :
    Put ⟨[], []⟩ [0, 0, 0, 0] (str "sdc:uuid") (str "v") =
      ((⟨[], []⟩ : MockConn), .error .sdcReadOnly) ∧
    Put ⟨[], []⟩ [0, 0, 0, 0] (str "foo") (str "bar") =
      sendRequest ⟨[], []⟩ [0, 0, 0, 0] putCode
        (encB64 (str "foo") ++ 32 :: encB64 (str "bar")) :=
  ⟨(put_namespace_guard ⟨[], []⟩ [0, 0, 0, 0] (str "sdc:uuid") (str "v")).1 (by decide),
   (put_namespace_guard ⟨[], []⟩ [0, 0, 0, 0] (str "foo") (str "bar")).2 (by decide)⟩

/-- The bytes written by `sendRequest` are always the previous contents
followed by the encoding of the freshly built frame. -/
theorem sendRequest_written (conn : MockConn) (rb code payload : List Nat) :
    (sendRequest conn rb code payload).1.written =
      conn.written ++ Encode (newFrame rb code payload) := by
  obtain ⟨w, toR⟩ := conn
  unfold sendRequest
  rcases toR with _ | ⟨line, rest⟩
  · rfl
  · simp only
    split
    · rfl
    · split <;> rfl

/-- C6. Put double encoding: for a non-`sdc:` key, `Put` writes a `PUT`
frame whose payload text is `base64(key) ++ " " ++ base64(value)`, and
the canonical body string of that frame base64-encodes this payload text
a second time. -/
theorem put_double_encoding (conn : MockConn) (randBytes key value : List Nat)
    (h : sdcPrefix.isPrefixOf key = false) :
    (Put conn randBytes key value).1.written =
      conn.written ++
        Encode (newFrame randBytes putCode (encB64 key ++ 32 :: encB64 value)) ∧
    buildBodyString (newFrame randBytes putCode (encB64 key ++ 32 :: encB64 value)) =
      hexEncode randBytes ++
        32 :: (putCode ++ 32 :: encB64 (encB64 key ++ 32 :: encB64 value)) := by
  constructor
  · have hput : Put conn randBytes key value =
        sendRequest conn randBytes putCode (encB64 key ++ 32 :: encB64 value) := by
      unfold Put
      rw [if_neg (by simp [h])]
    rw [hput, sendRequest_written]
  · rw [show newFrame randBytes putCode (encB64 key ++ 32 :: encB64 value) =
        updateBodyMetadata ⟨hexEncode randBytes, upperB putCode,
          encB64 key ++ 32 :: encB64 value, 0, []⟩ from rfl, buildBodyString_update]
    have hupper : upperB putCode = putCode := by decide
    have hlen : (encB64 key ++ 32 :: encB64 value).length > 0 := by simp
    unfold buildBodyString
    rw [if_pos hlen]
    simp [joinB, hupper]

/-- Witness for C6 at key `"foo"`, value `"bar"`. -/
theorem put_double_encoding_witness :
    (Put ⟨[], []⟩ [0, 0, 0, 0] (str "foo") (str "bar")).1.written =
      [] ++ Encode (newFrame [0, 0, 0, 0] putCode
        (encB64 (str "foo") ++ 32 :: encB64 (str "bar"))) ∧
    buildBodyString (newFrame [0, 0, 0, 0] putCode
        (encB64 (str "foo") ++ 32 :: encB64 (str "bar"))) =
      hexEncode [0, 0, 0, 0] ++
        32 :: (putCode ++ 32 :: encB64 (encB64 (str "foo") ++ 32 :: encB64 (str "bar"))) :=
  put_double_encoding ⟨[], []⟩ [0, 0, 0, 0] (str "foo") (str "bar") (by decide)

set_option maxRecDepth 10000 in
/-- C7 counterexample: the length field `"12abc"` is not integer text
(it is not all decimal digits), yet the parse succeeds — `Sscanf` stops
at the first non-digit and ignores the rest of the field. -/
theorem parse_nonint_length_counterexample :
    ParseFrame (str "V2 12abc 4ed02af9 aaaaaaaa GET\n") =
      .ok ⟨str "aaaaaaaa", str "GET", [], 12, str "4ed02af9"⟩ ∧
    sscanfD (str "12abc") = some 12 ∧
    (str "12abc").all (fun b => 48 ≤ b && b ≤ 57) = false :=
  ⟨by rfl, by rfl, by decide⟩

/-- C7 as amended: the parse rejects a line exactly when its length field
yields no integer under `Sscanf` prefix scanning (no digit after the
optional sign); such a line never produces a frame. -/
theorem parse_unscannable_length_rejected (data p0 : List Nat)
    (rest : List (List Nat))
    (hsplit : splitB (trimPrefixB ProtocolPrefix (trimSuffixB [10] data)) =
      p0 :: rest)
    (hn : sscanfD p0 = none) :
    ∀ f : Frame, ParseFrame data ≠ .ok f := by
  intro f
  have hpp : ∃ e, parsePre data = .error e := by
    unfold parsePre
    by_cases hpre : ProtocolPrefix.isPrefixOf data = true
    · rw [if_pos hpre, hsplit]
      rcases rest with _ | ⟨p1, rest2⟩
      · exact ⟨.invalidFrameFormat, rfl⟩
      · rcases rest2 with _ | ⟨b0, rest3⟩
        · exact ⟨.invalidFrameFormat, rfl⟩
        · refine ⟨.invalidBodyLength, ?_⟩
          simp only [hn]
    · exact ⟨.invalidFramePrefix, by rw [if_neg hpre]⟩
  obtain ⟨e, he⟩ := hpp
  unfold ParseFrame
  rw [he]
  simp

set_option maxRecDepth 10000 in
/-- Witness for amended C7: a line whose length field is `"abc"` is
rejected. -/
theorem parse_unscannable_length_rejected_witness :
    ParseFrame (str "V2 abc 4ed02af9 aaaaaaaa GET\n") ≠
      .ok ⟨str "aaaaaaaa", str "GET", [], 12, str "4ed02af9"⟩ :=
  parse_unscannable_length_rejected (str "V2 abc 4ed02af9 aaaaaaaa GET\n")
    (str "abc") [str "4ed02af9", str "aaaaaaaa", str "GET"] (by rfl) (by rfl)
    ⟨str "aaaaaaaa", str "GET", [], 12, str "4ed02af9"⟩

set_option maxRecDepth 10000 in
/-- C8. Unenforced BodyLength: a well-formed line whose checksum matches
but whose length field (999) differs from the true canonical body length
(12) is accepted, and the frame carries the wrong length unchanged. -/
theorem parse_bodyLength_unenforced :
    ParseFrame (str "V2 999 4ed02af9 aaaaaaaa GET\n") =
      .ok ⟨str "aaaaaaaa", str "GET", [], 999, str "4ed02af9"⟩ ∧
    ((buildBodyString ⟨str "aaaaaaaa", str "GET", [], 999, str "4ed02af9"⟩).length : Int)
      = 12 ∧
    (999 : Int) ≠ 12 :=
  ⟨by rfl, by rfl, by decide⟩

set_option maxRecDepth 10000 in
/-- C9 counterexample: a wire line whose code field is the lowercase
`"get"` parses successfully into a frame whose Code is not upper-cased —
the parser stores the wire code verbatim. -/
theorem parse_code_verbatim_counterexample :
    ParseFrame (str "V2 12 d8776873 aaaaaaaa get\n") =
      .ok ⟨str "aaaaaaaa", str "get", [], 12, str "d8776873"⟩ ∧
    upperB (str "get") ≠ str "get" :=
  ⟨by rfl, by decide⟩

/-- C9 as amended: frame construction upper-cases its code argument, so
every constructed frame carries an upper-cased (upper-casing-invariant)
Code; frames reconstructed by the parser carry the wire code verbatim
and need not be upper-cased. -/
theorem construct_code_uppercased (randBytes code payload : List Nat) :
    (newFrame randBytes code payload).Code = upperB code ∧
    upperB (newFrame randBytes code payload).Code =
      (newFrame randBytes code payload).Code := by
  refine ⟨rfl, ?_⟩
  show upperB (upperB code) = upperB code
  exact upperB_idem code

/-- C10. Extra trailing fields are ignored: on a line with more than five
fields, the parse is decided solely by the checksum over the body rebuilt
from RequestID, Code and the first payload field; when it matches, the
line is accepted and the returned frame contains nothing of the extra
fields. -/
theorem parse_extra_fields_ignored (data p0 p1 b0 b1 b2 : List Nat)
    (extra : List (List Nat)) (n : Int) (pay : List Nat)
    (hpre : ProtocolPrefix.isPrefixOf data = true)
    (hsplit : splitB (trimPrefixB ProtocolPrefix (trimSuffixB [10] data)) =
      p0 :: p1 :: b0 :: b1 :: b2 :: extra)
    (hextra : extra ≠ [])
    (hn : sscanfD p0 = some n)
    (h8 : p1.length = 8)
    (hdec : decB64 b2 = some pay) :
    ParseFrame data =
      if hex8 (crc32 (buildBodyString ⟨b0, b1, pay, n, p1⟩)) = p1 then
        .ok ⟨b0, b1, pay, n, p1⟩
      else .error .checksumMismatch := by
  have hok := parsePre_payload _ _ _ _ _ _ _ _ _ hpre hsplit hn h8 hdec
  exact ParseFrame_of_parsePre _ _ hok

set_option maxRecDepth 10000 in
/-- Witness for C10: a seven-field line (two extra fields) with matching
checksum is accepted; the extra fields do not appear in the frame. -/
theorem parse_extra_fields_ignored_witness :
    ParseFrame (str "V2 17 211b16bd aaaaaaaa GET eA== junk extra\n") =
      .ok ⟨str "aaaaaaaa", str "GET", str "x", 17, str "211b16bd"⟩ := by
  have h := parse_extra_fields_ignored
    (str "V2 17 211b16bd aaaaaaaa GET eA== junk extra\n")
    (str "17") (str "211b16bd") (str "aaaaaaaa") (str "GET") (str "eA==")
    [str "junk", str "extra"] 17 (str "x")
    (by rfl) (by rfl) (by decide) (by rfl) (by rfl) (by rfl)
  rw [h]
  rfl

end Mdata
